import Mathlib

/-!
Verification development for the actix-chain crate of the actix-services
repository: a shallow embedding of the fallback dispatch chain (builder,
compiled stage, selection, uri rewriting, continuation and the compile
loop), together with theorems settling the specification claims.

Rust strings are modelled as lists of characters; machine-level details
(async executors, reference counting, byte-level uri internals) are not
observable in any claim and are elided.  External collaborators (the http
crate uri parser) are modelled at the boundary, as the specification
scopes them.
-/

/-- Rust string slices and owned strings are modelled as lists of characters. -/
abbrev Str : Type := List Char

/-- Convert a Lean string literal to the model string type. -/
def str (s : String) : Str := s.toList

/-- Model of rust str::starts_with for literal string prefixes. -/
def strStartsWith (s p : Str) : Bool := p.isPrefixOf s

/-- Model of rust str::strip_prefix: the remainder when p is a literal prefix of s, otherwise none. -/
def stripPre (p s : Str) : Option Str :=
  if strStartsWith s p then some (s.drop p.length) else none

/-- Boundary model of http::Uri as the chain uses it: scheme and authority are carried opaquely, the path-and-query is a raw string; pq = none models Parts whose path_and_query is absent. -/
structure Uri where
  scheme : Option String
  authority : Option String
  pq : Option Str
  deriving DecidableEq

/-- Path component of a uri: the path-and-query up to the first question mark (empty when the path-and-query is absent). -/
def Uri.path (u : Uri) : Str :=
  match u.pq with
  | some s => s.takeWhile fun c => c != '?'
  | none => []

/-- Model of an HTTP response: status code, headers with lower-case normalized names, body. -/
structure Response where
  status : Nat
  headers : List (String × String)
  body : String
  deriving DecidableEq

/-- Model of the head of an actix ServiceRequest: method, headers and uri. The GuardContext handed to guards exposes this same request data, so guard checks are modelled as boolean functions over the request. -/
structure Request where
  method : String
  headers : List (String × String)
  uri : Uri
  deriving DecidableEq

/-- Guard trait objects from actix-web, as the chain consumes them: pure boolean tests over the guard context. -/
abbrev GuardFn : Type := Request → Bool

/-- AllGuard from link.rs: newtype over the guard list of a link. -/
structure AllGuard where
  guards : List GuardFn

/-- Guard::check for AllGuard from link.rs: the AND of all member checks. -/
def AllGuard.check (g : AllGuard) (ctx : Request) : Bool :=
  g.guards.all fun f => f ctx

/-- Next trait from next.rs: a boolean test over the produced response. -/
abbrev NextFn : Type := Response → Bool

/-- Next::next of IsStatus from next.rs: the response status equals the stored code. -/
def isStatusNext (code : Nat) : NextFn := fun res => res.status == code

/-- Next::next of HasHeader from next.rs: the response headers contain the stored normalized name; HeaderMap::contains_key looks only at names, never at values. -/
def hasHeaderNext (name : String) : NextFn := fun res =>
  res.headers.any fun kv => kv.fst == name

/-- Modelled from the spec: the HttpService type alias lives in crate::service whose file is absent from src; section 6 gives the handler capability, a request to response function. Handler failure is propagated verbatim by the dispatch loop per section 7 and is exercised by no claim, so handlers are modelled total. -/
abbrev HttpServiceFn : Type := Request → Response

/-- Modelled from the spec: the HttpNewService type alias lives in crate::service whose file is absent from src; section 6 gives the factory capability, a fallible one-shot handler factory. The stored value is the outcome of its single invocation. -/
abbrev HttpNewServiceFn : Type := Except Unit HttpServiceFn

/-- Link builder from link.rs. The source field named prefix is called pfx here because prefix is a Lean keyword. -/
structure Link where
  pfx : Str
  guards : List GuardFn
  next : List NextFn
  service : HttpNewServiceFn

/-- LinkInner from link.rs: the compiled stage. -/
structure LinkInner where
  pfx : Str
  guard : Option AllGuard
  service : HttpServiceFn
  next : List NextFn

/-- Link::into_inner from link.rs: an empty guard list compiles to none, a non-empty one to AllGuard over it; an empty next list compiles to the single default IsStatus(NOT_FOUND) predicate; the service factory is invoked exactly once and its error aborts compilation of the link. -/
def Link.intoInner (l : Link) : Except Unit LinkInner :=
  let guard : Option AllGuard :=
    match l.guards.isEmpty with
    | true => none
    | false => some { guards := l.guards }
  let next : List NextFn :=
    match l.next.isEmpty with
    | true => [isStatusNext 404]
    | false => l.next
  Except.map (fun svc => { pfx := l.pfx, guard := guard, next := next, service := svc }) l.service

/-- default_response from link.rs: 404 Not Found with a text/plain utf-8 body. -/
def defaultResponse : Response :=
  { status := 404
    headers := [("content-type", "text/plain; charset=utf-8")]
    body := "Not Found" }

/-- Valid path characters: boundary model of the http crate PathAndQuery path charset, approximated as alphanumerics plus common path punctuation. -/
def isPathChar (c : Char) : Bool :=
  c.isAlphanum || "-._~%!$&()*+,;=:@/".toList.contains c

/-- Valid query characters: the path charset plus the question mark. -/
def isQueryChar (c : Char) : Bool := isPathChar c || c == '?'

/-- Boundary model of http PathAndQuery::from_str: succeeds iff every character before the first question mark is a path character and the rest are query characters. -/
def pathAndQueryFromStr (s : Str) : Option Str :=
  if (s.takeWhile fun c => c != '?').all isPathChar
      && (s.dropWhile fun c => c != '?').all isQueryChar
  then some s
  else none

/-- Boundary model of http Uri::from_parts: errors iff a scheme is present without an authority or without a path-and-query, or an authority is present without a scheme while a path-and-query is present; otherwise an absent path-and-query becomes the empty one. -/
def uriFromParts (p : Uri) : Option Uri :=
  if p.scheme.isSome && (p.authority.isNone || p.pq.isNone) then none
  else if p.scheme.isNone && p.authority.isSome && p.pq.isSome then none
  else some { scheme := p.scheme, authority := p.authority, pq := some (p.pq.getD []) }

/-- LinkInner::new_uri from link.rs: with an empty prefix return none; otherwise strip the prefix from the path-and-query string, reparse the remainder (failures of strip or reparse drop the path-and-query part), and rebuild the uri from parts. -/
def LinkInner.newUri (l : LinkInner) (u : Uri) : Option Uri :=
  if l.pfx.isEmpty then none
  else uriFromParts { u with pq := u.pq.bind fun s => ( stripPre l.pfx s).bind pathAndQueryFromStr }

/-- LinkInner::matches from link.rs line 190, translated verbatim including the guard polarity of the source: the path starts with the prefix AND a guard is present whose combined check is false. -/
def LinkInner.matches (l : LinkInner) (path : Str) (ctx : Request) : Bool :=
  strStartsWith path l.pfx &&
    (match l.guard with
     | some g => ! AllGuard.check g ctx
     | none => false)

/-- LinkInner::go_next from link.rs: OR over the continuation predicates of the stage. -/
def LinkInner.goNext (l : LinkInner) (res : Response) : Bool :=
  l.next.any fun n => n res

/-- The request a stage handler actually observes in call_once: the uri is rewritten exactly when new_uri returns some, everything else is kept. -/
def LinkInner.forwardReq (l : LinkInner) (req : Request) : Request :=
  match l.newUri req.uri with
  | some u => { req with uri := u }
  | none => req

/-- LinkInner::call_once from link.rs: a request that does not match yields the default response without invoking the handler; a matching one is passed to the service with the possibly rewritten uri. -/
def LinkInner.callOnce (l : LinkInner) (req : Request) : Response :=
  if ! l.matches req.uri.path req then defaultResponse
  else l.service (l.forwardReq req)

/-- Modelled from the spec: ChainService::call lives in crate::service whose file is absent from src. Section 4.4 of the spec: stages are tried strictly in order; by step 2d the chain proceeds to the next stage iff the continuation set matches the obtained response AND a next stage exists, otherwise the obtained response is the final result; by step 3 an empty chain yields the synthesized default response. Each stage is evaluated through call_once from link.rs, the per-stage code present in src. -/
def chainCall : List LinkInner → Request → Response
  | [], _ => defaultResponse
  | [l], req => l.callOnce req
  | l :: l2 :: rest, req =>
    let res := l.callOnce req
    if l.goNext res then chainCall (l2 :: rest) req else res

/-- Modelled from the spec: ChainInner lives in crate::service whose file is absent from src; factory.rs constructs it from the compiled links and the reserved body buffer size. -/
structure ChainInner where
  links : List LinkInner
  bodyBufferSize : Nat

/-- Chain builder from factory.rs: mount path, links in declaration order, chain-level guards, and the reserved 32 KiB body buffer size. -/
structure Chain where
  mountPath : String
  links : List Link
  guards : List GuardFn
  bodyBufferSize : Nat

/-- Sequential link compilation loop of Chain::new_service from factory.rs: links compile in declaration order and the first failure aborts the whole compilation with an error. -/
def chainNewService : List Link → Except Unit (List LinkInner)
  | [] => Except.ok []
  | l :: rest =>
    match l.intoInner with
    | Except.error _ => Except.error ()
    | Except.ok li =>
      match chainNewService rest with
      | Except.ok lis => Except.ok (li :: lis)
      | Except.error _ => Except.error ()

/-- Chain::new_service from factory.rs: run the compilation loop and wrap the result into the chain service state. -/
def Chain.newService (c : Chain) : Except Unit ChainInner :=
  Except.map (fun ls => { links := ls, bodyBufferSize := c.bodyBufferSize }) (chainNewService c.links)

/-- Instrumented mirror of the new_service compilation loop: additionally returns, for each declared link in order, whether its factory was invoked. Each processed link invokes its factory exactly once; the loop has no retry. -/
def chainNewServiceFlags : List Link → Except Unit (List LinkInner) × List Bool
  | [] => (Except.ok [], [])
  | l :: rest =>
    match l.intoInner with
    | Except.error _ => (Except.error (), true :: rest.map fun _ => false)
    | Except.ok li =>
      let p := chainNewServiceFlags rest
      (Except.map (fun lis => li :: lis) p.fst, true :: p.snd)

/-- Handler returning 200 with body ok, used as concrete stage handler. -/
def okHandler : HttpServiceFn := fun _ => { status := 200, headers := [], body := "ok" }

/-- Guard that accepts every request. -/
def trueGuard : GuardFn := fun _ => true

/-- Guard that rejects every request. -/
def falseGuard : GuardFn := fun _ => false

/-- Concrete GET request at the given path-and-query, in origin form. -/
def mkReq (s : String) : Request :=
  { method := "GET"
    headers := []
    uri := { scheme := none, authority := none, pq := some s.toList } }

/-- Builder with no guards, no continuation predicates, empty prefix, succeeding factory. -/
def lbNoGuard : Link := { pfx := [], guards := [], next := [], service := Except.ok okHandler }

/-- Compiled form of lbNoGuard. -/
def liNoGuard : LinkInner :=
  { pfx := [], guard := none, service := okHandler, next := [isStatusNext 404] }

/-- Compiled stage whose single guard accepts every request. -/
def liTrueGuard : LinkInner :=
  { pfx := [], guard := some { guards := [trueGuard] }, service := okHandler, next := [isStatusNext 404] }

/-- Compiled stage whose single guard rejects every request. -/
def liFalseGuard : LinkInner :=
  { pfx := [], guard := some { guards := [falseGuard] }, service := okHandler, next := [isStatusNext 404] }

/-- Stage whose prefix no request path in the scenario carries, with the custom continuation predicate IsStatus(500). -/
def liC2a : LinkInner :=
  { pfx := str "/nope", guard := none, service := okHandler, next := [isStatusNext 500] }

/-- Stage with empty prefix and an always failing guard, hence selected under the source guard polarity. -/
def liC2b : LinkInner :=
  { pfx := [], guard := some { guards := [falseGuard] }, service := okHandler, next := [isStatusNext 404] }

/-- Link builder whose factory initialization succeeds. -/
def lbGood : Link := { pfx := [], guards := [], next := [], service := Except.ok okHandler }

/-- Link builder whose factory initialization fails. -/
def lbBad : Link := { pfx := [], guards := [], next := [], service := Except.error () }

/-- Chain whose second link fails initialization. -/
def chainC3 : Chain :=
  { mountPath := "", links := [lbGood, lbBad, lbGood], guards := [], bodyBufferSize := 32 * 1024 }

/-- Builder declaring a guard but zero continuation predicates. -/
def lbNoNext : Link :=
  { pfx := [], guards := [falseGuard], next := [], service := Except.ok okHandler }

/-- Compiled form of lbNoNext: carries the single default continuation predicate. -/
def liNoNext : LinkInner :=
  { pfx := [], guard := some { guards := [falseGuard] }, service := okHandler, next := [isStatusNext 404] }

/-- Concrete 200 response. -/
def res200 : Response := { status := 200, headers := [], body := "ok" }

/-- Stage mounted at the prefix /api, selected under the source polarity via an always failing guard. -/
def liApi : LinkInner :=
  { pfx := str "/api", guard := some { guards := [falseGuard] }, service := okHandler, next := [isStatusNext 404] }

/-- Request to /api/x with query q=1. -/
def reqApi : Request := mkReq "/api/x?q=1"

/-- Stage not selected by the request to /q. -/
def liUnsel : LinkInner :=
  { pfx := str "/z", guard := none, service := okHandler, next := [isStatusNext 404] }

/-- Stage mounted at the prefix /a. -/
def liA : LinkInner :=
  { pfx := str "/a", guard := none, service := okHandler, next := [isStatusNext 404] }

/-- Stage with an empty prefix. -/
def liEmpty : LinkInner :=
  { pfx := [], guard := none, service := okHandler, next := [isStatusNext 404] }

/-- Request to /b. -/
def reqB : Request := mkReq "/b"

/-- Stage whose only continuation predicate is HasHeader(x-test). -/
def liHdr : LinkInner :=
  { pfx := [], guard := none, service := okHandler, next := [hasHeaderNext "x-test"] }

/-- 200 response carrying the header x-test. -/
def resHdr : Response := { status := 200, headers := [("x-test", "1")], body := "" }

lemma isPrefixOf_append_self (p s : Str) : p.isPrefixOf (p ++ s) = true := by
  induction p with
  | nil => simp [List.isPrefixOf]
  | cons c cs ih => simp [List.isPrefixOf, ih]

lemma stripPre_append (p s : Str) : stripPre p (p ++ s) = some s := by
  unfold stripPre strStartsWith
  rw [isPrefixOf_append_self]
  simp [List.drop_left]

lemma takeWhile_append_all (p : Char → Bool) (a b : Str)
    (ha : a.all p = true) (hb : b = [] ∨ ∃ c t, b = c :: t ∧ p c = false) :
    (a ++ b).takeWhile p = a ∧ (a ++ b).dropWhile p = b := by
  induction a with
  | nil =>
    rcases hb with hb | ⟨c, t, hb, hpc⟩
    · subst hb; exact ⟨rfl, rfl⟩
    · subst hb
      constructor
      · simp [List.takeWhile, hpc]
      · simp [List.dropWhile, hpc]
  | cons x xs ih =>
    simp only [List.all_cons, Bool.and_eq_true] at ha
    obtain ⟨hx, hxs⟩ := ha
    obtain ⟨h1, h2⟩ := ih hxs
    constructor
    · simp [List.takeWhile, hx, h1]
    · simp [List.dropWhile, hx, h2]

lemma isPathChar_ne_qmark (c : Char) (h : isPathChar c = true) : (c != '?') = true := by
  cases hc : c == '?' with
  | true =>
    have : c = '?' := by
      have := eq_of_beq hc
      exact this
    subst this
    exact absurd h (by decide)
  | false => simp [bne, hc]

lemma all_ne_qmark_of_path (a : Str) (ha : a.all isPathChar = true) :
    (a.all fun c => c != '?') = true := by
  rw [List.all_eq_true] at ha ⊢
  intro c hc
  exact isPathChar_ne_qmark c (ha c hc)

lemma pqFromStr_valid (a b : Str)
    (ha : a.all isPathChar = true)
    (hb : b = [] ∨ ∃ t, b = '?' :: t ∧ t.all isQueryChar = true) :
    pathAndQueryFromStr (a ++ b) = some (a ++ b) := by
  have hb2 : b = [] ∨ ∃ c t, b = c :: t ∧ (fun c => c != '?') c = false := by
    rcases hb with hb | ⟨t, hb, _⟩
    · exact Or.inl hb
    · exact Or.inr ⟨'?', t, hb, by decide⟩
  obtain ⟨htake, hdrop⟩ := takeWhile_append_all (fun c => c != '?') a b (all_ne_qmark_of_path a ha) hb2
  unfold pathAndQueryFromStr
  rw [htake, hdrop, ha]
  have hbq : b.all isQueryChar = true := by
    rcases hb with hb | ⟨t, hb, ht⟩
    · subst hb; rfl
    · subst hb
      simp only [List.all_cons, Bool.and_eq_true]
      exact ⟨by decide, ht⟩
  rw [hbq]
  rfl

lemma pfx_isEmpty_false (l : LinkInner) (h : l.pfx ≠ []) : l.pfx.isEmpty = false := by
  cases hp : l.pfx with
  | nil => exact absurd hp h
  | cons c cs => rfl

lemma newUri_strip (l : LinkInner) (u : Uri) (s : Str)
    (hne : l.pfx ≠ []) (hsch : u.scheme = none) (hauth : u.authority = none)
    (hpq : u.pq = some (l.pfx ++ s)) (hok : pathAndQueryFromStr s = some s) :
    l.newUri u = some { scheme := none, authority := none, pq := some s } := by
  unfold LinkInner.newUri
  rw [pfx_isEmpty_false l hne]
  simp only [Bool.false_eq_true, if_false, hpq, Option.bind, stripPre_append, hok]
  unfold uriFromParts
  simp [hsch, hauth]

lemma chainNewServiceFlags_fst (links : List Link) :
    (chainNewServiceFlags links).fst = chainNewService links := by
  induction links with
  | nil => rfl
  | cons l rest ih =>
    unfold chainNewServiceFlags chainNewService
    cases h : l.intoInner with
    | error e => rfl
    | ok li =>
      simp only []
      rw [ih]
      cases chainNewService rest with
      | ok lis => rfl
      | error e => rfl

lemma map_const_false (xs : List Link) :
    (xs.map fun _ => false) = List.replicate xs.length false := by
  induction xs with
  | nil => rfl
  | cons x t ih => simp [List.replicate, ih]

lemma chainNewServiceFlags_spec (links : List Link) (i : Nat) (l : Link)
    (hi : links.get? i = some l) (hfail : Link.intoInner l = Except.error ())
    (hok : ∀ j, j < i → ∀ l2, links.get? j = some l2 → ∃ li, Link.intoInner l2 = Except.ok li) :
    (chainNewServiceFlags links).fst = Except.error ()
    ∧ (chainNewServiceFlags links).snd
        = List.replicate (i + 1) true ++ List.replicate (links.length - (i + 1)) false := by
  induction links generalizing i with
  | nil => cases hi
  | cons a as ih =>
    cases i with
    | zero =>
      have ha : a = l := Option.some.inj hi
      subst ha
      unfold chainNewServiceFlags
      rw [hfail]
      refine ⟨rfl, ?_⟩
      simp [map_const_false, List.replicate]
    | succ i2 =>
      obtain ⟨li, hli⟩ := hok 0 (Nat.succ_pos i2) a rfl
      have hi2 : as.get? i2 = some l := hi
      have hok2 : ∀ j, j < i2 → ∀ l2, as.get? j = some l2 →
          ∃ li2, Link.intoInner l2 = Except.ok li2 :=
        fun j hj l2 hl2 => hok (j + 1) (Nat.succ_lt_succ hj) l2 hl2
      obtain ⟨ihf, ihs⟩ := ih i2 hi2 hok2
      unfold chainNewServiceFlags
      rw [hli]
      constructor
      · show Except.map (fun lis => li :: lis) (chainNewServiceFlags as).fst = Except.error ()
        rw [ihf]
        rfl
      · show true :: (chainNewServiceFlags as).snd = _
        rw [ihs, List.length_cons, List.replicate_succ, Nat.succ_sub_succ, List.cons_append]
        rfl

/-- Claim C1, code bug evidence evaluated at the failing input: a compiled stage with no guards is never selected even though the path starts with its prefix, a stage whose only guard accepts every request is not selected either, and a stage whose only guard rejects every request is selected — the guard polarity of matches in link.rs line 190 is inverted relative to its own documentation and to the claim. -/
theorem c1_guard_polarity_inverted :
    Link.intoInner lbNoGuard = Except.ok liNoGuard
    ∧ LinkInner.matches liNoGuard (str "/") (mkReq "/") = false
    ∧ strStartsWith (str "/") liNoGuard.pfx = true
    ∧ LinkInner.matches liTrueGuard (str "/") (mkReq "/") = false
    ∧ LinkInner.matches liFalseGuard (str "/") (mkReq "/") = true := by
  refine ⟨rfl, by decide, by decide, by decide, by decide⟩

/-- Counterexample to claim C2: the first stage is not selected (prefix mismatch), yet call_once makes it contribute the synthesized default 404 response; its continuation predicate IsStatus(500) does not match that response, so the chain returns the response produced at the unselected stage and never reaches the second stage, which would have produced 200. -/
theorem c2_counterexample :
    chainCall [liC2a, liC2b] (mkReq "/x") = defaultResponse
    ∧ LinkInner.matches liC2a (Uri.path (mkReq "/x").uri) (mkReq "/x") = false
    ∧ LinkInner.callOnce liC2b (mkReq "/x") = res200
    ∧ defaultResponse.status = 404 := by
  refine ⟨by decide, by decide, by decide, rfl⟩

/-- Claim C2 as amended: when a stage is not selected its handler is not invoked and the stage contributes the synthesized default 404 response of call_once; evaluation proceeds to the next stage iff some continuation predicate of the unselected stage matches that default response (which the default IsStatus(NOT_FOUND) predicate does), and otherwise the chain terminates with the synthesized 404 produced at that stage. -/
theorem c2_unselected_stage (l l2 : LinkInner) (rest : List LinkInner) (req : Request)
    (hsel : LinkInner.matches l req.uri.path req = false) :
    chainCall (l :: l2 :: rest) req =
      (if l.goNext defaultResponse then chainCall (l2 :: rest) req else defaultResponse) := by
  have hco : l.callOnce req = defaultResponse := by
    unfold LinkInner.callOnce
    rw [hsel]
    rfl
  have hstep : chainCall (l :: l2 :: rest) req =
      (if l.goNext (l.callOnce req) then chainCall (l2 :: rest) req else l.callOnce req) := rfl
  rw [hstep, hco]

/-- Witness for the amended claim C2 at a concrete chain and request. -/
theorem c2_unselected_stage_witness :
    chainCall [liC2a, liC2b] (mkReq "/x") =
      (if liC2a.goNext defaultResponse then chainCall [liC2b] (mkReq "/x") else defaultResponse) :=
  c2_unselected_stage liC2a liC2b [] (mkReq "/x") (by decide)

/-- Claim C3: Chain::new_service compiles the links sequentially in declaration order, invoking each factory at most once with no retry; when the factory of link i is the first to fail, the whole chain compilation returns the init error, no chain service is produced, and the factories of links after i are never invoked — the invocation flags are true exactly through position i. -/
theorem c3_compile_atomicity (c : Chain) (i : Nat) (l : Link)
    (hi : c.links.get? i = some l) (hfail : Link.intoInner l = Except.error ())
    (hok : ∀ j, j < i → ∀ l2, c.links.get? j = some l2 → ∃ li, Link.intoInner l2 = Except.ok li) :
    Chain.newService c = Except.error ()
    ∧ (chainNewServiceFlags c.links).snd
        = List.replicate (i + 1) true ++ List.replicate (c.links.length - (i + 1)) false := by
  obtain ⟨h1, h2⟩ := chainNewServiceFlags_spec c.links i l hi hfail hok
  refine ⟨?_, h2⟩
  unfold Chain.newService
  rw [chainNewServiceFlags_fst c.links] at h1
  rw [h1]
  rfl

/-- Witness for claim C3: a chain of three links whose second factory fails compiles to the init error with exactly the first two factories invoked. -/
theorem c3_compile_atomicity_witness :
    Chain.newService chainC3 = Except.error ()
    ∧ (chainNewServiceFlags chainC3.links).snd
        = List.replicate 2 true ++ List.replicate (chainC3.links.length - 2) false := by
  refine c3_compile_atomicity chainC3 1 lbBad rfl rfl ?_
  intro j hj l2 hl2
  have hj0 : j = 0 := by omega
  subst hj0
  have h2 : lbGood = l2 := Option.some.inj hl2
  subst h2
  exact ⟨_, rfl⟩

/-- Claim C4: a stage declared with zero continuation predicates compiles to a stage carrying exactly the single default IsStatus(NOT_FOUND) predicate, and its fallthrough decision on a produced response holds iff the response status is 404. -/
theorem c4_default_continuation (l : Link) (li : LinkInner) (res : Response)
    (h0 : l.next = []) (hok : Link.intoInner l = Except.ok li) :
    li.next = [isStatusNext 404] ∧ (li.goNext res = true ↔ res.status = 404) := by
  unfold Link.intoInner at hok
  rw [h0] at hok
  cases hs : l.service with
  | error e =>
    rw [hs] at hok
    simp [Except.map] at hok
  | ok svc =>
    rw [hs] at hok
    simp only [Except.map] at hok
    have heq := Except.ok.inj hok
    subst heq
    refine ⟨rfl, ?_⟩
    simp [LinkInner.goNext, isStatusNext]

/-- Witness for claim C4 at a concrete builder with zero continuation predicates and a concrete 200 response. -/
theorem c4_default_continuation_witness :
    liNoNext.next = [isStatusNext 404] ∧ (liNoNext.goNext res200 = true ↔ res200.status = 404) :=
  c4_default_continuation lbNoNext liNoNext res200 rfl rfl

lemma qext_stop (qext : Str)
    (hqe : qext = [] ∨ ∃ t, qext = '?' :: t ∧ t.all isQueryChar = true) :
    qext = [] ∨ ∃ c t, qext = c :: t ∧ (fun c => c != '?') c = false := by
  rcases hqe with h | ⟨t, ht, _⟩
  · exact Or.inl h
  · exact Or.inr ⟨'?', t, ht, by decide⟩

/-- Claim C5: when a stage with non-empty prefix is invoked on a request whose path is the prefix followed by a suffix, the handler observes the suffix as its path, and with an empty prefix the handler observes the original request unchanged; the character-set hypotheses discharge the boundary model of the uri reparse. -/
theorem c5_handler_observes_suffix (l : LinkInner) (req : Request) (suffix qext : Str)
    (hsch : req.uri.scheme = none) (hauth : req.uri.authority = none)
    (hpq : req.uri.pq = some (l.pfx ++ (suffix ++ qext)))
    (hsuf : suffix.all isPathChar = true)
    (hqe : qext = [] ∨ ∃ t, qext = '?' :: t ∧ t.all isQueryChar = true) :
    (l.matches req.uri.path req = true → l.callOnce req = l.service (l.forwardReq req))
    ∧ (l.pfx ≠ [] → Uri.path ((l.forwardReq req).uri) = suffix)
    ∧ (l.pfx = [] → l.forwardReq req = req) := by
  refine ⟨?_, ?_, ?_⟩
  · intro hm
    unfold LinkInner.callOnce
    rw [hm]
    rfl
  · intro hne
    have hparse : pathAndQueryFromStr (suffix ++ qext) = some (suffix ++ qext) :=
      pqFromStr_valid suffix qext hsuf hqe
    have hnu := newUri_strip l req.uri (suffix ++ qext) hne hsch hauth hpq hparse
    unfold LinkInner.forwardReq
    rw [hnu]
    show Uri.path { scheme := none, authority := none, pq := some (suffix ++ qext) } = suffix
    unfold Uri.path
    exact (takeWhile_append_all _ suffix qext (all_ne_qmark_of_path suffix hsuf) (qext_stop qext hqe)).1
  · intro hz
    unfold LinkInner.forwardReq LinkInner.newUri
    rw [hz]
    rfl

/-- Witness for claim C5: the stage mounted at /api forwards the request for /api/x?q=1 with observed path /x, and call_once hands exactly that forwarded request to the handler. -/
theorem c5_handler_observes_suffix_witness :
    Uri.path ((LinkInner.forwardReq liApi reqApi).uri) = str "/x"
    ∧ LinkInner.callOnce liApi reqApi = LinkInner.service liApi (LinkInner.forwardReq liApi reqApi) := by
  have h := c5_handler_observes_suffix liApi reqApi (str "/x") (str "?q=1") rfl rfl (by decide)
    (by decide) (Or.inr ⟨ str "q=1", by decide, by decide⟩)
  exact ⟨h.2.1 (by decide), h.1 (by decide)⟩

/-- Claim C6: when every selected stage falls through on its produced response and the last stage, if any, is not selected (per spec step 4.4.d a stage falls through only to an existing next stage), the final result of the chain is the synthesized default response: 404 Not Found with the plain-text body; this covers the chain with zero stages. -/
theorem c6_exhaustion_default (links : List LinkInner) (req : Request)
    (hsel : ∀ l, l ∈ links → LinkInner.matches l req.uri.path req = true →
      LinkInner.goNext l (LinkInner.service l (LinkInner.forwardReq l req)) = true)
    (hlast : ∀ l, links.getLast? = some l → LinkInner.matches l req.uri.path req = false) :
    chainCall links req = defaultResponse
    ∧ defaultResponse.status = 404
    ∧ defaultResponse.headers = [("content-type", "text/plain; charset=utf-8")] := by
  refine ⟨?_, rfl, rfl⟩
  induction links with
  | nil => rfl
  | cons a as ih =>
    cases as with
    | nil =>
      have hm := hlast a rfl
      show a.callOnce req = defaultResponse
      unfold LinkInner.callOnce
      rw [hm]
      rfl
    | cons b bs =>
      have hstep : chainCall (a :: b :: bs) req =
          (if a.goNext (a.callOnce req) then chainCall (b :: bs) req else a.callOnce req) := rfl
      have hsel2 : ∀ l, l ∈ b :: bs → LinkInner.matches l req.uri.path req = true →
          LinkInner.goNext l (LinkInner.service l (LinkInner.forwardReq l req)) = true :=
        fun l hl hm => hsel l (List.mem_cons_of_mem a hl) hm
      have hlast2 : ∀ l, (b :: bs).getLast? = some l →
          LinkInner.matches l req.uri.path req = false :=
        fun l hl => hlast l hl
      have htail := ih hsel2 hlast2
      by_cases hm : a.matches req.uri.path req = true
      · have hgo := hsel a (List.mem_cons_self a (b :: bs)) hm
        have hco : a.callOnce req = a.service (a.forwardReq req) := by
          unfold LinkInner.callOnce
          rw [hm]
          rfl
        rw [hstep, hco, hgo, if_pos rfl, htail]
      · have hm2 : a.matches req.uri.path req = false := by
          cases h2 : a.matches req.uri.path req with
          | true => exact absurd h2 hm
          | false => rfl
        have hco : a.callOnce req = defaultResponse := by
          unfold LinkInner.callOnce
          rw [hm2]
          rfl
        rw [hstep, hco]
        cases hgo : a.goNext defaultResponse with
        | true => rw [if_pos rfl, htail]
        | false => rw [if_neg (by simp)]

/-- Witness for claim C6 at a one-stage chain whose stage is not selected. -/
theorem c6_exhaustion_default_witness :
    chainCall [liUnsel] (mkReq "/q") = defaultResponse
    ∧ defaultResponse.status = 404
    ∧ defaultResponse.headers = [("content-type", "text/plain; charset=utf-8")] := by
  refine c6_exhaustion_default [liUnsel] (mkReq "/q") ?_ ?_
  · intro l hl hm
    have he : l = liUnsel := List.mem_singleton.mp hl
    subst he
    exact absurd hm (by decide)
  · intro l hl
    have h2 : some liUnsel = some l := hl
    have he := Option.some.inj h2
    subst he
    decide

/-- Claim C7: compilation establishes the continuation invariant: the compiled stage carries exactly the declared continuation predicates when any were added and exactly the single default IsStatus(NOT_FOUND) predicate otherwise, hence always at least one; compiled stages are immutable values, so the invariant persists after compile. -/
theorem c7_continuation_invariant (l : Link) (li : LinkInner)
    (hok : Link.intoInner l = Except.ok li) :
    li.next = (if l.next.isEmpty then [isStatusNext 404] else l.next) ∧ li.next ≠ [] := by
  unfold Link.intoInner at hok
  cases hs : l.service with
  | error e =>
    rw [hs] at hok
    simp [Except.map] at hok
  | ok svc =>
    rw [hs] at hok
    simp only [Except.map] at hok
    have heq := Except.ok.inj hok
    subst heq
    cases hn : l.next with
    | nil => exact ⟨by simp, by simp⟩
    | cons n ns => exact ⟨by simp, by simp⟩

/-- Witness for claim C7 at a concrete builder with zero declared continuation predicates. -/
theorem c7_continuation_invariant_witness :
    liNoNext.next = (if lbNoNext.next.isEmpty then [isStatusNext 404] else lbNoNext.next)
    ∧ liNoNext.next ≠ [] :=
  c7_continuation_invariant lbNoNext liNoNext rfl

/-- Claim C8: prefix stripping is a frame effect on the path-and-query part of the uri only: the forwarded request keeps the method and headers of the original, and for a request with non-empty prefix, path equal to the prefix followed by a suffix, and a query, the forwarded request carries the suffix as path with the query preserved and scheme and authority unchanged. -/
theorem c8_strip_frame (l : LinkInner) (req : Request) (suffix qs : Str)
    (hne : l.pfx ≠ [])
    (hsch : req.uri.scheme = none) (hauth : req.uri.authority = none)
    (hpq : req.uri.pq = some (l.pfx ++ (suffix ++ ('?' :: qs))))
    (hsuf : suffix.all isPathChar = true) (hqs : qs.all isQueryChar = true) :
    (l.forwardReq req).method = req.method
    ∧ (l.forwardReq req).headers = req.headers
    ∧ ((l.forwardReq req).uri).pq = some (suffix ++ ('?' :: qs))
    ∧ Uri.path ((l.forwardReq req).uri) = suffix
    ∧ ((l.forwardReq req).uri).scheme = req.uri.scheme
    ∧ ((l.forwardReq req).uri).authority = req.uri.authority := by
  have hparse : pathAndQueryFromStr (suffix ++ ('?' :: qs)) = some (suffix ++ ('?' :: qs)) :=
    pqFromStr_valid suffix ('?' :: qs) hsuf (Or.inr ⟨qs, rfl, hqs⟩)
  have hnu := newUri_strip l req.uri (suffix ++ ('?' :: qs)) hne hsch hauth hpq hparse
  unfold LinkInner.forwardReq
  rw [hnu]
  refine ⟨rfl, rfl, rfl, ?_, hsch.symm, hauth.symm⟩
  show Uri.path { scheme := none, authority := none, pq := some (suffix ++ ('?' :: qs)) } = suffix
  unfold Uri.path
  exact (takeWhile_append_all _ suffix ('?' :: qs) (all_ne_qmark_of_path suffix hsuf)
    (Or.inr ⟨'?', qs, rfl, by decide⟩)).1

/-- Witness for claim C8: forwarding /api/x?q=1 through the stage mounted at /api keeps method, headers and query, and rewrites only the path. -/
theorem c8_strip_frame_witness :
    (LinkInner.forwardReq liApi reqApi).method = reqApi.method
    ∧ (LinkInner.forwardReq liApi reqApi).headers = reqApi.headers
    ∧ ((LinkInner.forwardReq liApi reqApi).uri).pq = some ( str "/x" ++ ('?' :: str "q=1"))
    ∧ Uri.path ((LinkInner.forwardReq liApi reqApi).uri) = str "/x" := by
  have h := c8_strip_frame liApi reqApi ( str "/x") ( str "q=1") (by decide) rfl rfl (by decide)
    (by decide) (by decide)
  exact ⟨h.1, h.2.1, h.2.2.1, h.2.2.2.1⟩

/-- Counterexample to claim C9: with stage prefix /a and an origin-form request uri for /b, the path-and-query does not start with the prefix, yet new_uri does not return none: the failed strip drops the path-and-query part and Uri::from_parts succeeds on the scheme-less, authority-less parts, so new_uri returns some uri with an empty path-and-query. -/
theorem c9_counterexample :
    LinkInner.newUri liA reqB.uri = some { scheme := none, authority := none, pq := some [] }
    ∧ ¬ (LinkInner.newUri liA reqB.uri = none) := by
  refine ⟨by decide, by decide⟩

/-- Claim C9 as amended: uri rewriting is a total function that raises no error: new_uri returns none when the stage prefix is empty; when the prefix is non-empty and stripping or reparsing fails on a scheme-less, authority-less uri, it returns some uri with an empty path-and-query (the dropped part is re-defaulted by Uri::from_parts) rather than none; and whenever new_uri returns none, call_once forwards the request with its original uri unchanged. -/
theorem c9_new_uri_total (l : LinkInner) (req : Request) :
    (l.pfx = [] → l.newUri req.uri = none)
    ∧ (l.pfx ≠ [] → req.uri.scheme = none → req.uri.authority = none →
        (req.uri.pq.bind fun s => ( stripPre l.pfx s).bind pathAndQueryFromStr) = none →
        l.newUri req.uri = some { scheme := none, authority := none, pq := some [] })
    ∧ (l.newUri req.uri = none → l.forwardReq req = req) := by
  refine ⟨?_, ?_, ?_⟩
  · intro hz
    unfold LinkInner.newUri
    rw [hz]
    rfl
  · intro hne hsch hauth hb
    unfold LinkInner.newUri
    rw [pfx_isEmpty_false l hne]
    simp only [Bool.false_eq_true, if_false]
    rw [hb]
    unfold uriFromParts
    simp [hsch, hauth]
  · intro hn
    unfold LinkInner.forwardReq
    rw [hn]

/-- Witness for the amended claim C9: the failed strip at the /a stage yields the empty path-and-query uri, and a stage with empty prefix forwards the request unchanged. -/
theorem c9_new_uri_total_witness :
    LinkInner.newUri liA reqB.uri = some { scheme := none, authority := none, pq := some [] }
    ∧ LinkInner.forwardReq liEmpty reqB = reqB := by
  have h1 := c9_new_uri_total liA reqB
  have h2 := c9_new_uri_total liEmpty reqB
  exact ⟨h1.2.1 (by decide) rfl rfl (by decide), h2.2.2 (h2.1 rfl)⟩

/-- Claim C10: a stage whose continuation predicate list is the single HasHeader(name) predicate falls through exactly when the produced response carries a header with that name, independent of the header value and of the response status. -/
theorem c10_has_header (name : String) (l : LinkInner) (res : Response)
    (hn : l.next = [hasHeaderNext name]) :
    (l.goNext res = true ↔ ∃ v, (name, v) ∈ res.headers) := by
  unfold LinkInner.goNext
  rw [hn]
  simp only [List.any_cons, List.any_nil, Bool.or_false]
  unfold hasHeaderNext
  rw [List.any_eq_true]
  constructor
  · rintro ⟨kv, hkv, hbeq⟩
    have hfst : kv.fst = name := eq_of_beq hbeq
    refine ⟨kv.snd, ?_⟩
    have hkv2 : (name, kv.snd) = kv := by
      rw [← hfst]
    rw [hkv2]
    exact hkv
  · rintro ⟨v, hv⟩
    exact ⟨(name, v), hv, by simp⟩

/-- Witness for claim C10: the HasHeader(x-test) stage falls through on a 200 response carrying that header. -/
theorem c10_has_header_witness : LinkInner.goNext liHdr resHdr = true :=
  (c10_has_header "x-test" liHdr resHdr rfl).mpr ⟨"1", by simp [resHdr]⟩
